import Mathlib

/-!
Shallow embedding of the selection-geometry and history pipeline of
src/Home.tsx (Banana-Zoom).  Numbers are modelled as rationals (JS numbers
at the precision the algorithms use them), rasters as an inductive term
recording which canvas operation produced them, and the React state updates
as pure functions on explicit state.
-/

namespace BananaZoom

/-- Axis-aligned rectangle, `interface Rect` of src/Home.tsx. -/
structure Rect where
  x : ℚ
  y : ℚ
  w : ℚ
  h : ℚ
deriving DecidableEq

/-- `interface ImageDescription` of src/Home.tsx; `prompt` is optional. -/
structure ImageDescription where
  selectionDescription : String
  prompt : Option String
deriving DecidableEq

/-- Raster values: a raster is the source image, a full-canvas snapshot
(`canvas.toDataURL`), the result of `cropImage` (draw sub-rectangle
`cropRect` of `src` into a `targetW x targetH` canvas, nearest-neighbor iff
`pixelated`), or an AI-enhanced image returned by the external service with
its own natural dimensions. -/
inductive Raster where
  | source (w h : ℚ) : Raster
  | canvasSnapshot (w h : ℚ) : Raster
  | crop (src : Raster) (cropRect : Rect) (targetW targetH : ℚ) (pixelated : Bool) : Raster
  | aiEnhanced (input : Raster) (w h : ℚ) : Raster
deriving DecidableEq

/-- Natural width of a raster. -/
def Raster.width : Raster → ℚ
  | .source w _ => w
  | .canvasSnapshot w _ => w
  | .crop _ _ tw _ _ => tw
  | .aiEnhanced _ w _ => w

/-- Natural height of a raster. -/
def Raster.height : Raster → ℚ
  | .source _ h => h
  | .canvasSnapshot _ h => h
  | .crop _ _ _ th _ => th
  | .aiEnhanced _ _ h => h

/-- Whether a raster is (at top level) the result of a `cropImage` call. -/
def Raster.isCrop : Raster → Bool
  | .crop _ _ _ _ _ => true
  | _ => false

/-- The source raster a crop was taken from, when the raster is a crop. -/
def Raster.cropSource : Raster → Option Raster
  | .crop src _ _ _ _ => some src
  | _ => none

/-- Whether any AI-enhanced content occurs anywhere inside a raster. -/
def Raster.hasAI : Raster → Bool
  | .source _ _ => false
  | .canvasSnapshot _ _ => false
  | .crop src _ _ _ _ => src.hasAI
  | .aiEnhanced _ _ _ => true

/-- `interface HistoryStep` of src/Home.tsx. -/
structure HistoryStep where
  imageSrc : Raster
  description : Option ImageDescription
  originalRect : Option Rect
deriving DecidableEq

/-- History commit, from `handleEnhancementComplete` (src/Home.tsx lines
996-998): `newHistory = history.slice(0, historyIndex + 1)`, then
`setHistory([...newHistory, newStep]); setHistoryIndex(newHistory.length)`. -/
def commitStep (hist : List HistoryStep) (historyIndex : ℕ) (newStep : HistoryStep) :
    List HistoryStep × ℕ :=
  let newHistory := hist.take (historyIndex + 1)
  (newHistory ++ [newStep], newHistory.length)

/-- History update of `handleRegenerate` (src/Home.tsx line 1094):
`newHistory = [...history.slice(0, historyIndex), newStep]`; `historyIndex`
is not changed by the handler. -/
def regenerateStep (hist : List HistoryStep) (historyIndex : ℕ) (newStep : HistoryStep) :
    List HistoryStep × ℕ :=
  (hist.take historyIndex ++ [newStep], historyIndex)

/-- Eager branch truncation of `startEnhancementProcess` (src/Home.tsx lines
908-911): performed only when the cursor is behind the tip. -/
def eagerTruncate (hist : List HistoryStep) (historyIndex : ℕ) : List HistoryStep :=
  if historyIndex < hist.length - 1 then hist.take (historyIndex + 1) else hist

/-- Fixed-size box clamping of `handleMouseDown` (src/Home.tsx lines
500-505), extracted over the box's top-left anchor `(x0, y0)` and its size:
first the position is clamped to be nonnegative, then (if the box overruns
the right/bottom edge) it is moved to `bounds - box`. -/
def clampBoxToBounds (x0 y0 boxW boxH boundsW boundsH : ℚ) : Rect :=
  let x1 := if x0 < 0 then 0 else x0
  let y1 := if y0 < 0 then 0 else y0
  let x2 := if x1 + boxW > boundsW then boundsW - boxW else x1
  let y2 := if y1 + boxH > boundsH then boundsH - boxH else y1
  ⟨x2, y2, boxW, boxH⟩

/-- Symmetric padding with clamping, from `runEnhancementJob` (src/Home.tsx
lines 945-954; the same block appears in `handleRegenerate` lines
1064-1073 with `padding = 0.5`). -/
def padRect (r : Rect) (padding boundsW boundsH : ℚ) : Rect :=
  let paddedX := r.x - r.w * padding
  let paddedY := r.y - r.h * padding
  let paddedW := r.w * (1 + 2 * padding)
  let paddedH := r.h * (1 + 2 * padding)
  let finalPaddedX := max 0 paddedX
  let finalPaddedY := max 0 paddedY
  let finalPaddedX2 := min boundsW (paddedX + paddedW)
  let finalPaddedY2 := min boundsH (paddedY + paddedH)
  ⟨finalPaddedX, finalPaddedY, finalPaddedX2 - finalPaddedX, finalPaddedY2 - finalPaddedY⟩

/-- A well-formed rectangle lying inside the bounds `[0, W] x [0, H]`. -/
def rectWithin (r : Rect) (boundsW boundsH : ℚ) : Prop :=
  0 ≤ r.x ∧ 0 ≤ r.y ∧ 0 ≤ r.w ∧ 0 ≤ r.h ∧ r.x + r.w ≤ boundsW ∧ r.y + r.h ≤ boundsH

instance (r : Rect) (bw bh : ℚ) : Decidable (rectWithin r bw bh) := by
  unfold rectWithin; infer_instance

/-- `outer` contains `inner` (as spans on both axes). -/
def rectContains (outer inner : Rect) : Prop :=
  outer.x ≤ inner.x ∧ outer.y ≤ inner.y ∧
    inner.x + inner.w ≤ outer.x + outer.w ∧ inner.y + inner.h ≤ outer.y + outer.h

instance (a b : Rect) : Decidable (rectContains a b) := by
  unfold rectContains; infer_instance

/-- Easing function of src/Home.tsx line 247:
`t < 0.5 ? 4*t*t*t : 1 - Math.pow(-2*t+2, 3)/2`. -/
def easeInOutCubic (t : ℚ) : ℚ :=
  if t < 1/2 then 4 * t * t * t else 1 - (-2 * t + 2)^3 / 2

/-- Componentwise linear interpolation of rectangles, src/Home.tsx lines
248-253. -/
def interpolateRect (s e : Rect) (t : ℚ) : Rect :=
  ⟨s.x + (e.x - s.x) * t, s.y + (e.y - s.y) * t,
   s.w + (e.w - s.w) * t, s.h + (e.h - s.h) * t⟩

/-- A staged, not yet confirmed, selection (`type StagedSelection` of
src/Home.tsx): the selection rectangle in source-image coordinates, the
screen-space rectangle, and the full-canvas snapshot taken at staging
time. -/
structure StagedSelection where
  originalRect : Rect
  screenRect : Rect
  canvasDataUrl : Raster
deriving DecidableEq

/-- In-flight enhancement state (`interface EnhancementJob` of
src/Home.tsx). -/
structure EnhancementJob where
  originalRect : Rect
  canvasWithSelectionDataUrl : Raster
  pixelatedSrc : Raster
  screenRect : Rect
deriving DecidableEq

/-- Fixed-box staging path of `handleMouseDown` (src/Home.tsx lines
486-520): reject clicks outside the letterboxed image area, convert the
click point to source coordinates, center the fixed box on it, clamp with
`clampBoxToBounds`, convert back to a screen rectangle, and stage together
with a snapshot of the full canvas (on which the dashed selection rectangle
has just been stroked). -/
def handleMouseDownFixed (posX posY : ℚ) (imageW imageH : ℚ)
    (scale offsetX offsetY dWidth dHeight : ℚ) (pct : ℚ)
    (snapshot : Raster) : Option StagedSelection :=
  if posX < offsetX ∨ posX > offsetX + dWidth ∨ posY < offsetY ∨ posY > offsetY + dHeight then
    none
  else
    let originalClickX := (posX - offsetX) / scale
    let originalClickY := (posY - offsetY) / scale
    let boxWidth := imageW * pct
    let boxHeight := imageH * pct
    let originalRect :=
      clampBoxToBounds (originalClickX - boxWidth / 2) (originalClickY - boxHeight / 2)
        boxWidth boxHeight imageW imageH
    let screenRect : Rect :=
      ⟨originalRect.x * scale + offsetX, originalRect.y * scale + offsetY,
       originalRect.w * scale, originalRect.h * scale⟩
    some ⟨originalRect, screenRect, snapshot⟩

/-- Free-draw mouse-up result: the component's `selection` and `startPoint`
state after the handler, and the staging event (argument of
`onStageSelection`) when one is emitted. -/
structure MouseUpResult where
  selection : Option Rect
  startPoint : Option (ℚ × ℚ)
  staged : Option StagedSelection
deriving DecidableEq

/-- Free-draw path of `handleMouseUp` (src/Home.tsx lines 537-557).  With
the fixed selection box active the handler returns immediately; otherwise
a missing selection or image, a selection narrower or shorter than 10
screen pixels, or an in-flight enhancement clears the transient state and
stages nothing; otherwise the screen selection is converted to source
coordinates and staged with the canvas snapshot. -/
def handleMouseUp (useFixedSelectionBox isEnhancing : Bool)
    (image : Option Raster) (scale offsetX offsetY : ℚ)
    (selection : Option Rect) (startPoint : Option (ℚ × ℚ))
    (snapshot : Raster) : MouseUpResult :=
  if useFixedSelectionBox then ⟨selection, startPoint, none⟩
  else
    match selection, image with
    | none, _ => ⟨none, none, none⟩
    | some _, none => ⟨none, none, none⟩
    | some sel, some _ =>
      if sel.w < 10 ∨ sel.h < 10 ∨ isEnhancing = true then ⟨none, none, none⟩
      else
        let originalRect : Rect :=
          ⟨(sel.x - offsetX) / scale, (sel.y - offsetY) / scale, sel.w / scale, sel.h / scale⟩
        ⟨none, none, some ⟨originalRect, sel, snapshot⟩⟩

/-- The slice of app state that staging can touch: the history store and
the staged selection. -/
structure AppHistState where
  history : List HistoryStep
  historyIndex : ℕ
  stagedSelection : Option StagedSelection
deriving DecidableEq

/-- Applying a mouse-up result to the app state: `onStageSelection`
(`handleStageSelection`, src/Home.tsx lines 902-904) stores the staged
selection; nothing else about the history is touched by mouse-up. -/
def applyMouseUp (app : AppHistState) (res : MouseUpResult) : AppHistState :=
  match res.staged with
  | none => app
  | some s => { app with stagedSelection := some s }

/-- Job construction in `startEnhancementProcess` (src/Home.tsx lines
924-926): the pixelated low-detail preview is a nearest-neighbor self-sized
crop of the current image at the original rectangle. -/
def startEnhancementJob (image : Raster) (s : StagedSelection) : EnhancementJob :=
  ⟨s.originalRect, s.canvasDataUrl,
   Raster.crop image s.originalRect s.originalRect.w s.originalRect.h true, s.screenRect⟩

/-- Outcome of the external enhance call inside `serviceEnhance`
(src/Home.tsx lines 197-244): the request may throw, be blocked, return no
candidates, return candidates without any inline image part, or return an
enhanced image. -/
inductive EnhanceOutcome where
  | throws : EnhanceOutcome
  | blocked : EnhanceOutcome
  | noCandidates : EnhanceOutcome
  | okNoImage : EnhanceOutcome
  | ok (img : Raster) : EnhanceOutcome
deriving DecidableEq

/-- `serviceEnhance` (src/Home.tsx lines 178-245).  An empty prompt history
returns the input (lines 188-191).  A blocked response and an empty
candidate list both throw inside the `try`, and any thrown error is caught
at lines 241-244 and mapped to returning the input image unchanged;
candidates without inline data leave `imageSrc` at its initial value, the
input. -/
def serviceEnhance (croppedImageDataUrl : Raster) (history : List String)
    (outcome : EnhanceOutcome) : Raster :=
  if history.length = 0 then croppedImageDataUrl
  else
    match outcome with
    | .throws => croppedImageDataUrl
    | .blocked => croppedImageDataUrl
    | .noCandidates => croppedImageDataUrl
    | .okNoImage => croppedImageDataUrl
    | .ok img => img

/-- Arguments of the `serviceDescribeImage` call in `runEnhancementJob`
(src/Home.tsx lines 940-941): the canvas snapshot stored in the job, and
the non-null descriptions of the steps up to and including the cursor. -/
def describeCallArgs (job : EnhancementJob) (hist : List HistoryStep) (historyIndex : ℕ) :
    Raster × List ImageDescription :=
  (job.canvasWithSelectionDataUrl,
   (hist.take (historyIndex + 1)).filterMap HistoryStep.description)

/-- Result of one run of `runEnhancementJob`: what the reveal phase is
given and what `handleEnhancementComplete` will commit. -/
structure JobOutput where
  pixelated : Raster
  enhanced : Raster
  description : ImageDescription
  originalRect : Rect
deriving DecidableEq

/-- `runEnhancementJob` (src/Home.tsx lines 935-991).  `describeResult` is
the (never-throwing) result of `serviceDescribeImage`; `outcome` is the
external enhance call's outcome; `loadOk` is whether decoding the returned
enhanced image succeeds (its failure is the only rejection inside the
`try`, sending control to the `catch` of lines 981-986, whose fallback is a
smooth 2x-upscaled crop of the original selection). -/
def runEnhancementJob (image : Raster) (job : EnhancementJob)
    (hist : List HistoryStep) (historyIndex : ℕ)
    (describeResult : ImageDescription) (outcome : EnhanceOutcome)
    (loadOk : Bool) : JobOutput :=
  let originalRect := job.originalRect
  let descriptionHistory := (hist.take (historyIndex + 1)).filterMap HistoryStep.description
  let sourceImageWidth := image.width
  let sourceImageHeight := image.height
  let padding : ℚ := 1/4
  let paddedRect := padRect originalRect padding sourceImageWidth sourceImageHeight
  let aspect := paddedRect.h / paddedRect.w
  let targetWidth : ℚ := 512 * (1 + padding)
  let targetHeight : ℚ := (round (targetWidth * aspect) : ℤ)
  let croppedForEnhancement := Raster.crop image paddedRect targetWidth targetHeight false
  let prompts := descriptionHistory.map (fun d => d.prompt.getD "") ++ [describeResult.prompt.getD ""]
  let enhancedPaddedSrc := serviceEnhance croppedForEnhancement prompts outcome
  if loadOk then
    let finalCropRect : Rect :=
      ⟨enhancedPaddedSrc.width * ((originalRect.x - paddedRect.x) / paddedRect.w),
       enhancedPaddedSrc.height * ((originalRect.y - paddedRect.y) / paddedRect.h),
       enhancedPaddedSrc.width * (originalRect.w / paddedRect.w),
       enhancedPaddedSrc.height * (originalRect.h / paddedRect.h)⟩
    let finalImageWidth : ℚ := 1024
    let finalImageHeight : ℚ := (round (finalImageWidth * (originalRect.h / originalRect.w)) : ℤ)
    ⟨job.pixelatedSrc,
     Raster.crop enhancedPaddedSrc finalCropRect finalImageWidth finalImageHeight false,
     describeResult, originalRect⟩
  else
    ⟨job.pixelatedSrc,
     Raster.crop image originalRect (originalRect.w * 2) (originalRect.h * 2) false,
     describeResult, originalRect⟩

/-- One frame emitted by `generateZoomGif`: a zoom frame drawing pair
image `i` cropped to the interpolated camera rectangle with a dashed
overlay, or a hold frame drawing image `i` in full. -/
inductive GifFrame where
  | zoom (imgIndex : ℕ) (current : Rect) (overlay : Rect) : GifFrame
  | hold (imgIndex : ℕ) : GifFrame
deriving DecidableEq

/-- Frames of one consecutive history pair `(i, i+1)` in `generateZoomGif`
(src/Home.tsx lines 296-331): 30 zoom frames (`fps = 30`,
`zoomDuration = 1.0`) from the full extent of image `i` into step `i+1`'s
selection rectangle, eased by `easeInOutCubic`, then 15 hold frames
(`holdDuration = 0.5`) of image `i+1`; a pair whose end rectangle is null
is skipped (`continue`). -/
def pairFrames (hist : List HistoryStep) (gifWidth gifHeight : ℚ) (i : ℕ) : List GifFrame :=
  match hist[i]?, hist[i + 1]? with
  | some stepA, some stepB =>
    match stepB.originalRect with
    | none => []
    | some endRect =>
      let startRect : Rect := ⟨0, 0, stepA.imageSrc.width, stepA.imageSrc.height⟩
      ((List.range 30).map fun (f : ℕ) =>
        let t := easeInOutCubic ((f : ℚ) / 30)
        let currentRect := interpolateRect startRect endRect t
        let scaleX := gifWidth / currentRect.w
        let scaleY := gifHeight / currentRect.h
        GifFrame.zoom i currentRect
          ⟨(endRect.x - currentRect.x) * scaleX, (endRect.y - currentRect.y) * scaleY,
           endRect.w * scaleX, endRect.h * scaleY⟩)
      ++ (List.range 15).map fun _ => GifFrame.hold (i + 1)
  | _, _ => []

/-- `generateZoomGif` (src/Home.tsx lines 261-334): fails on a history of
fewer than two steps and on a null selection rectangle in the second step;
otherwise the canvas is 512 wide with height from the first selection's
aspect ratio, and the frames of all consecutive pairs are emitted in
order. -/
def generateZoomGif (hist : List HistoryStep) : Except String (List GifFrame) :=
  if hist.length < 2 then
    Except.error "History must contain at least two steps to generate a GIF."
  else
    match hist[1]? with
    | none => Except.error "History must contain at least two steps to generate a GIF."
    | some step1 =>
      match step1.originalRect with
      | none => Except.error "The second history step must have a selection rectangle."
      | some firstSelectionRect =>
        let gifWidth : ℚ := 512
        let gifHeight : ℚ :=
          (round (gifWidth * (firstSelectionRect.h / firstSelectionRect.w)) : ℤ)
        Except.ok (((List.range (hist.length - 1)).map (pairFrames hist gifWidth gifHeight)).flatten)

/-- Transposition of two slot indices, as performed on array entries by the
destructuring swap of src/Home.tsx line 609. -/
def natSwap (i j k : ℕ) : ℕ :=
  if k = i then j else if k = j then i else k

/-- Entry lookup function of `pixelIndices` after the Fisher-Yates loop of
`PixelDissolve.startAnimation` (src/Home.tsx lines 606-610) has run its
loop counter down from `i` to `1`: the array starts as the identity, and
the swap at loop counter `i` composes the lookup with the transposition of
slots `i` and `j = floor(random * (i+1))`, modelled as `rand i % (i+1)`. -/
def shuffleFrom (rand : ℕ → ℕ) : ℕ → ℕ → ℕ
  | 0, k => k
  | i + 1, k => natSwap (i + 1) (rand (i + 1) % (i + 2)) (shuffleFrom rand i k)

/-- Inverse lookup of `shuffleFrom`, applying the same transpositions in
the opposite order. -/
def shuffleFromInv (rand : ℕ → ℕ) : ℕ → ℕ → ℕ
  | 0, k => k
  | i + 1, k => shuffleFromInv rand i (natSwap (i + 1) (rand (i + 1) % (i + 2)) k)

/-- The shuffled pixel-index list for `totalPixels = n`: entry `k` of
`pixelIndices` after the Fisher-Yates loop (which runs from `n - 1` down
to `1`). -/
def pixelEntries (rand : ℕ → ℕ) (n : ℕ) : List ℕ :=
  (List.range n).map (shuffleFrom rand (n - 1))

/-- `pixelsPerFrame` of src/Home.tsx line 612:
`Math.max(1, Math.ceil(totalPixels / 60))`. -/
def pixelsPerFrame (n : ℕ) : ℕ :=
  max 1 ((n + 59) / 60)

/-- Revealing one shuffled pixel index in the working buffer (src/Home.tsx
lines 621-629): channels `4*idx .. 4*idx+3` are copied from the
high-detail data, guarded by the buffer-length check
`pIndex + 3 < 4 * n`. -/
def revealIdx (n : ℕ) (high buf : ℕ → ℕ) (idx : ℕ) : ℕ → ℕ :=
  fun c => if idx * 4 ≤ c ∧ c < idx * 4 + 4 ∧ idx * 4 + 3 < 4 * n then high c else buf c

/-- Revealing a list of shuffled pixel indices in order. -/
def revealList (n : ℕ) (high : ℕ → ℕ) (buf : ℕ → ℕ) : List ℕ → (ℕ → ℕ)
  | [] => buf
  | idx :: rest => revealList n high (revealIdx n high buf idx) rest

/-- The tick loop `animate` of src/Home.tsx lines 613-634: each tick
reveals the next `ppfPred + 1` indices of the shuffled list (the code's
chunk size `pixelsPerFrame n` is positive, so it is passed here as
`pixelsPerFrame n - 1 + 1`) and the loop ends when the list is
exhausted. -/
def revealTicks (n : ℕ) (high : ℕ → ℕ) (ppfPred : ℕ) (buf : ℕ → ℕ) (l : List ℕ) : ℕ → ℕ :=
  match l with
  | [] => buf
  | idx :: rest =>
    revealTicks n high ppfPred
      (revealList n high buf ((idx :: rest).take (ppfPred + 1)))
      ((idx :: rest).drop (ppfPred + 1))
termination_by l.length
decreasing_by
  simp [List.length_drop]
  omega

/-! ### Concrete history steps for counterexamples and witnesses -/

/-- Initial step: the loaded source image, no description, no rect. -/
def stepA : HistoryStep := ⟨Raster.source 800 600, none, none⟩

/-- A committed enhancement step. -/
def stepB : HistoryStep :=
  ⟨Raster.aiEnhanced (Raster.source 800 600) 1024 768,
   some ⟨"step b", some "pb"⟩, some ⟨10, 20, 100, 75⟩⟩

/-- A further committed enhancement step. -/
def stepC : HistoryStep :=
  ⟨Raster.aiEnhanced (Raster.source 800 600) 1024 1024,
   some ⟨"step c", some "pc"⟩, some ⟨30, 40, 50, 50⟩⟩

/-- A regenerated replacement for `stepB`. -/
def stepBnew : HistoryStep :=
  ⟨Raster.aiEnhanced (Raster.source 800 600) 1024 768,
   some ⟨"step b regenerated", some "pb2"⟩, some ⟨10, 20, 100, 75⟩⟩

/-- A freshly committed step used after an undo. -/
def stepD : HistoryStep :=
  ⟨Raster.aiEnhanced (Raster.source 800 600) 1024 768,
   some ⟨"step d", some "pd"⟩, some ⟨5, 6, 40, 30⟩⟩

/-- The staged selection of the spec's end-to-end scenario: the clamped
100 x 75 box at click point (400, 300) on an 800 x 600 image, staged with a
snapshot of a 1000 x 700 canvas. -/
def selScenario : StagedSelection :=
  ⟨⟨350, 525/2, 100, 75⟩, ⟨400, 300, 100, 75⟩, Raster.canvasSnapshot 1000 700⟩

/-- The enhancement job built from `selScenario` on the source image. -/
def jobScenario : EnhancementJob :=
  startEnhancementJob (Raster.source 800 600) selScenario

/-- The fallback description string of `serviceDescribeImage`. -/
def descFallback : ImageDescription :=
  ⟨"user selected a region to enhance", none⟩

/-! ### C9: easing function -/

/-- C9: `easeInOutCubic 0 = 0`, `easeInOutCubic 1 = 1`,
`easeInOutCubic (1/2) = 1/2`, and the function is monotonically
non-decreasing on `[0, 1]`. -/
theorem easeInOutCubic_spec :
    easeInOutCubic 0 = 0 ∧ easeInOutCubic 1 = 1 ∧ easeInOutCubic (1/2) = 1/2 ∧
    ∀ s t : ℚ, 0 ≤ s → s ≤ t → t ≤ 1 → easeInOutCubic s ≤ easeInOutCubic t := by
  refine ⟨by norm_num [easeInOutCubic], by norm_num [easeInOutCubic],
    by norm_num [easeInOutCubic], ?_⟩
  intro s t hs hst ht
  have ht0 : 0 ≤ t := hs.trans hst
  have hts : 0 ≤ t - s := by linarith
  unfold easeInOutCubic
  split_ifs with h1 h2 h2
  · nlinarith [mul_nonneg (mul_nonneg ht0 ht0) hts, mul_nonneg (mul_nonneg hs hs) hts,
      mul_nonneg (mul_nonneg hs ht0) hts]
  · have hu0 : (0:ℚ) ≤ -2 * t + 2 := by linarith
    have hu1 : -2 * t + 2 ≤ 1 := by linarith
    have hs2 : (0:ℚ) ≤ 1/2 - s := by linarith
    nlinarith [mul_nonneg (mul_nonneg hs hs) hs2, mul_nonneg hs hs2,
      mul_nonneg (mul_nonneg hu0 hu0) (by linarith : (0:ℚ) ≤ 1 - (-2 * t + 2)),
      mul_nonneg hu0 (by linarith : (0:ℚ) ≤ 1 - (-2 * t + 2))]
  · exact absurd (lt_of_le_of_lt hst h2) h1
  · have hu0 : (0:ℚ) ≤ -2 * t + 2 := by linarith
    have hv0 : (0:ℚ) ≤ -2 * s + 2 := by linarith
    have huv : (0:ℚ) ≤ (-2 * s + 2) - (-2 * t + 2) := by linarith
    nlinarith [mul_nonneg (mul_nonneg hu0 hu0) huv, mul_nonneg (mul_nonneg hv0 hv0) huv,
      mul_nonneg (mul_nonneg hu0 hv0) huv]

/-- Witness for C9's monotonicity at a concrete pair. -/
theorem easeInOutCubic_spec_witness :
    (0:ℚ) ≤ 1/4 ∧ (1/4:ℚ) ≤ 3/4 ∧ (3/4:ℚ) ≤ 1 ∧
    easeInOutCubic (1/4) ≤ easeInOutCubic (3/4) :=
  ⟨by norm_num, by norm_num, by norm_num,
   easeInOutCubic_spec.2.2.2 (1/4) (3/4) (by norm_num) (by norm_num) (by norm_num)⟩

/-! ### C4: fixed-box clamping -/

/-- C4 counterexample: a 10-wide box in 5-wide bounds, anchored left of the
origin, ends at position `5 - 10 = -5`, not floored at `0`, and the result
does not lie within the bounds. -/
theorem clampBoxToBounds_counterexample :
    clampBoxToBounds 0 0 10 1 5 5 = ⟨-5, 0, 10, 1⟩ ∧
    ¬ rectWithin (clampBoxToBounds 0 0 10 1 5 5) 5 5 ∧
    (clampBoxToBounds 0 0 10 1 5 5).x ≠ 0 := by
  refine ⟨by norm_num [clampBoxToBounds, Rect.mk.injEq],
    by norm_num [clampBoxToBounds, rectWithin],
    by norm_num [clampBoxToBounds]⟩

/-- C4 amended: the shifted box keeps the caller's size and lies within
`[0, boundsW] x [0, boundsH]` whenever it fits; when the box is larger than
the bounds on an axis its position is set to `bounds - box` (a negative
value, right/bottom-aligned), not floored at `0`. -/
theorem clampBoxToBounds_spec (x0 y0 boxW boxH boundsW boundsH : ℚ)
    (hw0 : 0 ≤ boxW) (hh0 : 0 ≤ boxH) :
    (boxW ≤ boundsW ∧ boxH ≤ boundsH →
      rectWithin (clampBoxToBounds x0 y0 boxW boxH boundsW boundsH) boundsW boundsH) ∧
    (boundsW < boxW → (clampBoxToBounds x0 y0 boxW boxH boundsW boundsH).x = boundsW - boxW) ∧
    (boundsH < boxH → (clampBoxToBounds x0 y0 boxW boxH boundsW boundsH).y = boundsH - boxH) ∧
    (clampBoxToBounds x0 y0 boxW boxH boundsW boundsH).w = boxW ∧
    (clampBoxToBounds x0 y0 boxW boxH boundsW boundsH).h = boxH := by
  refine ⟨?_, ?_, ?_, rfl, rfl⟩
  · rintro ⟨hw, hh⟩
    simp only [clampBoxToBounds, rectWithin]
    split_ifs <;> exact ⟨by linarith, by linarith, hw0, hh0, by linarith, by linarith⟩
  · intro h
    simp only [clampBoxToBounds]
    split_ifs <;> first | rfl | linarith
  · intro h
    simp only [clampBoxToBounds]
    split_ifs <;> first | rfl | linarith

/-- Witness for C4's amended theorem on the spec's end-to-end scenario box
(100 x 75 within 800 x 600). -/
theorem clampBoxToBounds_spec_witness :
    (0:ℚ) ≤ 100 ∧ (0:ℚ) ≤ 75 ∧ (100:ℚ) ≤ 800 ∧ (75:ℚ) ≤ 600 ∧
    rectWithin (clampBoxToBounds 350 (525/2) 100 75 800 600) 800 600 :=
  ⟨by norm_num, by norm_num, by norm_num, by norm_num,
   (clampBoxToBounds_spec 350 (525/2) 100 75 800 600 (by norm_num) (by norm_num)).1
     ⟨by norm_num, by norm_num⟩⟩

/-- Value check for the staged fixed box of the spec's end-to-end scenario:
a 12.5 percent box of an 800 x 600 image anchored on the click point
`(400, 300)` stages the rectangle `{x: 350, y: 262.5, w: 100, h: 75}`. -/
theorem clampBoxToBounds_scenario :
    clampBoxToBounds (400 - 100/2) (300 - 75/2) 100 75 800 600 = ⟨350, 525/2, 100, 75⟩ := by
  norm_num [clampBoxToBounds, Rect.mk.injEq]

/-! ### C6: padding -/

/-- C6 counterexample: for an out-of-bounds rectangle the clamped padded
rectangle can be degenerate (negative width), hence does not lie within the
bounds. -/
theorem padRect_counterexample :
    padRect ⟨-100, 0, 10, 10⟩ 0 100 100 = ⟨0, 0, -90, 10⟩ ∧
    ¬ rectWithin (padRect ⟨-100, 0, 10, 10⟩ 0 100 100) 100 100 := by
  refine ⟨by norm_num [padRect, Rect.mk.injEq, max_def, min_def],
    by norm_num [padRect, rectWithin, max_def, min_def]⟩

/-- C6 amended: for `ratio ≥ 0`, whenever `r` itself lies within
`[0, W] x [0, H]`, the padded rectangle contains `r` and lies within
`[0, W] x [0, H]`; for out-of-bounds `r` the intersection can be degenerate
or out of bounds. -/
theorem padRect_spec (r : Rect) (padding boundsW boundsH : ℚ)
    (hpad : 0 ≤ padding) (hr : rectWithin r boundsW boundsH) :
    rectContains (padRect r padding boundsW boundsH) r ∧
    rectWithin (padRect r padding boundsW boundsH) boundsW boundsH := by
  obtain ⟨hx, hy, hw, hh, hxw, hyh⟩ := hr
  have hwp : 0 ≤ r.w * padding := mul_nonneg hw hpad
  have hhp : 0 ≤ r.h * padding := mul_nonneg hh hpad
  have hres : padRect r padding boundsW boundsH =
      ⟨max 0 (r.x - r.w * padding), max 0 (r.y - r.h * padding),
       min boundsW (r.x - r.w * padding + r.w * (1 + 2 * padding)) - max 0 (r.x - r.w * padding),
       min boundsH (r.y - r.h * padding + r.h * (1 + 2 * padding)) - max 0 (r.y - r.h * padding)⟩ :=
    rfl
  have ha1 : 0 ≤ max 0 (r.x - r.w * padding) := le_max_left _ _
  have ha2 : max 0 (r.x - r.w * padding) ≤ r.x := max_le hx (by linarith)
  have hb1 : min boundsW (r.x - r.w * padding + r.w * (1 + 2 * padding)) ≤ boundsW :=
    min_le_left _ _
  have hb2 : r.x + r.w ≤ min boundsW (r.x - r.w * padding + r.w * (1 + 2 * padding)) :=
    le_min hxw (by nlinarith)
  have hc1 : 0 ≤ max 0 (r.y - r.h * padding) := le_max_left _ _
  have hc2 : max 0 (r.y - r.h * padding) ≤ r.y := max_le hy (by linarith)
  have hd1 : min boundsH (r.y - r.h * padding + r.h * (1 + 2 * padding)) ≤ boundsH :=
    min_le_left _ _
  have hd2 : r.y + r.h ≤ min boundsH (r.y - r.h * padding + r.h * (1 + 2 * padding)) :=
    le_min hyh (by nlinarith)
  rw [hres]
  exact ⟨⟨ha2, hc2, by dsimp only; linarith, by dsimp only; linarith⟩,
    ha1, hc1, by dsimp only; linarith, by dsimp only; linarith,
    by dsimp only; linarith, by dsimp only; linarith⟩

/-- Witness for C6's amended theorem on the spec scenario rectangle. -/
theorem padRect_spec_witness :
    (0:ℚ) ≤ 1/4 ∧ rectWithin ⟨350, 525/2, 100, 75⟩ 800 600 ∧
    rectContains (padRect ⟨350, 525/2, 100, 75⟩ (1/4) 800 600) ⟨350, 525/2, 100, 75⟩ ∧
    rectWithin (padRect ⟨350, 525/2, 100, 75⟩ (1/4) 800 600) 800 600 :=
  ⟨by norm_num, by norm_num [rectWithin],
   (padRect_spec ⟨350, 525/2, 100, 75⟩ (1/4) 800 600 (by norm_num) (by norm_num [rectWithin])).1,
   (padRect_spec ⟨350, 525/2, 100, 75⟩ (1/4) 800 600 (by norm_num) (by norm_num [rectWithin])).2⟩

/-! ### C2: regenerate -/

/-- C2 counterexample: regenerating `[A, B, C]` at cursor 1 discards `C`
(the entry that existed beyond the cursor), so steps beyond the cursor are
not unaffected. -/
theorem regenerateStep_counterexample :
    (regenerateStep [stepA, stepB, stepC] 1 stepBnew).1 = [stepA, stepBnew] ∧
    (regenerateStep [stepA, stepB, stepC] 1 stepBnew).1[2]? = none ∧
    ([stepA, stepB, stepC] : List HistoryStep)[2]? = some stepC := by
  refine ⟨rfl, rfl, rfl⟩

/-- C2 amended: for `cursor > 0`, regenerate replaces `steps[cursor]` with
the new step and discards any steps beyond the cursor (the log is truncated
to `cursor + 1` entries); `steps[0..cursor-1]` are unchanged and the cursor
does not move. -/
theorem regenerateStep_spec (hist : List HistoryStep) (historyIndex : ℕ)
    (newStep : HistoryStep) (_h0 : 0 < historyIndex) (hlen : historyIndex < hist.length) :
    (regenerateStep hist historyIndex newStep).2 = historyIndex ∧
    (regenerateStep hist historyIndex newStep).1.length = historyIndex + 1 ∧
    (∀ i, i < historyIndex →
      (regenerateStep hist historyIndex newStep).1[i]? = hist[i]?) ∧
    (regenerateStep hist historyIndex newStep).1[historyIndex]? = some newStep := by
  have htk : (hist.take historyIndex).length = historyIndex :=
    List.length_take_of_le (le_of_lt hlen)
  refine ⟨rfl, ?_, ?_, ?_⟩
  · simp [regenerateStep, htk]
  · intro i hi
    simp only [regenerateStep]
    rw [List.getElem?_append_left (by omega), List.getElem?_take_of_lt hi]
  · simp only [regenerateStep]
    have := List.getElem?_concat_length (hist.take historyIndex) newStep
    rwa [htk] at this

/-- Witness for C2's amended theorem at the concrete history `[A, B, C]`. -/
theorem regenerateStep_spec_witness :
    0 < 1 ∧ 1 < ([stepA, stepB, stepC] : List HistoryStep).length ∧
    (regenerateStep [stepA, stepB, stepC] 1 stepBnew).2 = 1 ∧
    (regenerateStep [stepA, stepB, stepC] 1 stepBnew).1.length = 2 ∧
    (regenerateStep [stepA, stepB, stepC] 1 stepBnew).1[1]? = some stepBnew := by
  have h := regenerateStep_spec [stepA, stepB, stepC] 1 stepBnew (by norm_num) (by norm_num)
  exact ⟨by norm_num, by norm_num, h.1, h.2.1, h.2.2.2⟩

/-! ### C3: commit with branch truncation -/

/-- C3: committing a new step with the cursor behind the tip truncates the
log to `steps[0..cursor]`, appends the new step, and moves the cursor to
the new last index; the active prefix is unchanged. -/
theorem commitStep_spec (hist : List HistoryStep) (historyIndex : ℕ) (newStep : HistoryStep)
    (hlen : historyIndex < hist.length - 1) :
    (commitStep hist historyIndex newStep).1 = hist.take (historyIndex + 1) ++ [newStep] ∧
    (commitStep hist historyIndex newStep).2 = historyIndex + 1 ∧
    (commitStep hist historyIndex newStep).1.length = historyIndex + 2 ∧
    (commitStep hist historyIndex newStep).2 =
      (commitStep hist historyIndex newStep).1.length - 1 ∧
    (∀ i, i ≤ historyIndex →
      (commitStep hist historyIndex newStep).1[i]? = hist[i]?) ∧
    (commitStep hist historyIndex newStep).1[historyIndex + 1]? = some newStep := by
  have htk : (hist.take (historyIndex + 1)).length = historyIndex + 1 :=
    List.length_take_of_le (by omega)
  refine ⟨rfl, ?_, ?_, ?_, ?_, ?_⟩
  · simp [commitStep, htk]
  · simp [commitStep, htk]
  · simp [commitStep, htk]
  · intro i hi
    simp only [commitStep]
    rw [List.getElem?_append_left (by omega), List.getElem?_take_of_lt (by omega)]
  · simp only [commitStep]
    have := List.getElem?_concat_length (hist.take (historyIndex + 1)) newStep
    rwa [htk] at this

/-- Witness for C3: `[A, B, C]` with cursor 1 plus `commit(D)` yields
`[A, B, D]` with cursor 2. -/
theorem commitStep_spec_witness :
    1 < ([stepA, stepB, stepC] : List HistoryStep).length - 1 ∧
    (commitStep [stepA, stepB, stepC] 1 stepD).1 = [stepA, stepB, stepD] ∧
    (commitStep [stepA, stepB, stepC] 1 stepD).2 = 2 := by
  have h := commitStep_spec [stepA, stepB, stepC] 1 stepD (by norm_num)
  exact ⟨by norm_num, by rw [h.1]; rfl, h.2.1⟩

/-! ### C10: small free-draw selections are discarded -/

/-- C10: a free-draw selection whose screen-space width or height is below
10 pixels is silently discarded on mouse-up: the transient selection state
is cleared, nothing is staged, and the staged-selection and history state
are unchanged. -/
theorem smallSelection_discarded (isEnhancing : Bool) (image : Raster)
    (scale offsetX offsetY : ℚ) (sel : Rect) (startPoint : Option (ℚ × ℚ))
    (snapshot : Raster) (app : AppHistState)
    (hsmall : sel.w < 10 ∨ sel.h < 10) :
    (handleMouseUp false isEnhancing (some image) scale offsetX offsetY
        (some sel) startPoint snapshot).staged = none ∧
    (handleMouseUp false isEnhancing (some image) scale offsetX offsetY
        (some sel) startPoint snapshot).selection = none ∧
    (handleMouseUp false isEnhancing (some image) scale offsetX offsetY
        (some sel) startPoint snapshot).startPoint = none ∧
    applyMouseUp app (handleMouseUp false isEnhancing (some image) scale offsetX offsetY
        (some sel) startPoint snapshot) = app := by
  have hcond : sel.w < 10 ∨ sel.h < 10 ∨ isEnhancing = true := by
    rcases hsmall with h | h
    · exact Or.inl h
    · exact Or.inr (Or.inl h)
  refine ⟨?_, ?_, ?_, ?_⟩ <;>
    simp only [handleMouseUp, Bool.false_eq_true, if_false, if_pos hcond, applyMouseUp]

/-- Witness for C10: a concrete 9 x 40 screen selection is discarded and a
concrete app state is unchanged. -/
theorem smallSelection_discarded_witness :
    ((9:ℚ) < 10 ∨ (40:ℚ) < 10) ∧
    (handleMouseUp false false (some (Raster.source 800 600)) 1 0 0
        (some ⟨100, 100, 9, 40⟩) (some (100, 100)) (Raster.canvasSnapshot 1000 700)).staged
      = none ∧
    applyMouseUp ⟨[stepA], 0, none⟩
        (handleMouseUp false false (some (Raster.source 800 600)) 1 0 0
          (some ⟨100, 100, 9, 40⟩) (some (100, 100)) (Raster.canvasSnapshot 1000 700))
      = ⟨[stepA], 0, none⟩ := by
  have h := smallSelection_discarded false (Raster.source 800 600) 1 0 0
    ⟨100, 100, 9, 40⟩ (some (100, 100)) (Raster.canvasSnapshot 1000 700)
    ⟨[stepA], 0, none⟩ (Or.inl (by norm_num))
  exact ⟨Or.inl (by norm_num), h.1, h.2.2.2⟩

/-! ### C5: arguments of the describe call -/

/-- C5 counterexample: for a concrete confirmed enhancement the raster
handed to the external describe capability is the full-canvas snapshot
taken at staging time, not a crop of the selection rectangle extracted
from the current image. -/
theorem describeCall_counterexample :
    (describeCallArgs
        (startEnhancementJob (Raster.source 800 600)
          ⟨⟨350, 525/2, 100, 75⟩, ⟨400, 300, 100, 75⟩, Raster.canvasSnapshot 1000 700⟩)
        [stepA] 0).1 = Raster.canvasSnapshot 1000 700 ∧
    (describeCallArgs
        (startEnhancementJob (Raster.source 800 600)
          ⟨⟨350, 525/2, 100, 75⟩, ⟨400, 300, 100, 75⟩, Raster.canvasSnapshot 1000 700⟩)
        [stepA] 0).1.isCrop = false := by
  exact ⟨rfl, rfl⟩

/-- C5 amended: the describe call receives the full-canvas snapshot stored
when the selection was staged (the displayed canvas with the selection
rectangle drawn on it), together with the ordered list of the non-null
descriptions of the committed steps up to and including the cursor. -/
theorem describeCall_spec (image : Raster) (s : StagedSelection)
    (hist : List HistoryStep) (historyIndex : ℕ)
    (cw ch : ℚ) (hsnap : s.canvasDataUrl = Raster.canvasSnapshot cw ch) :
    describeCallArgs (startEnhancementJob image s) hist historyIndex =
      (Raster.canvasSnapshot cw ch,
       (hist.take (historyIndex + 1)).filterMap HistoryStep.description) := by
  simp [describeCallArgs, startEnhancementJob, hsnap]

/-- Witness for C5's amended theorem at a concrete staged selection and
history. -/
theorem describeCall_spec_witness :
    (⟨⟨350, 525/2, 100, 75⟩, ⟨400, 300, 100, 75⟩,
        Raster.canvasSnapshot 1000 700⟩ : StagedSelection).canvasDataUrl
      = Raster.canvasSnapshot 1000 700 ∧
    describeCallArgs
        (startEnhancementJob (Raster.aiEnhanced (Raster.source 800 600) 1024 768)
          ⟨⟨350, 525/2, 100, 75⟩, ⟨400, 300, 100, 75⟩, Raster.canvasSnapshot 1000 700⟩)
        [stepA, stepB] 1 =
      (Raster.canvasSnapshot 1000 700, [⟨"step b", some "pb"⟩]) := by
  refine ⟨rfl, ?_⟩
  rw [describeCall_spec (Raster.aiEnhanced (Raster.source 800 600) 1024 768)
    ⟨⟨350, 525/2, 100, 75⟩, ⟨400, 300, 100, 75⟩, Raster.canvasSnapshot 1000 700⟩
    [stepA, stepB] 1 1000 700 rfl]
  rfl

/-! ### C1: fallback on enhance failure -/

/-- C1 counterexample: when the external enhance call throws (and the
returned data URL decodes, as the service's own input does), the committed
image is the 1024-wide re-crop of the un-enhanced padded crop — its
immediate crop source is itself a crop, not the source image — and it is
not the 2x-upscaled (200 x 150) smooth crop of the original 100 x 75
selection. -/
theorem enhanceFailure_counterexample :
    (runEnhancementJob (Raster.source 800 600) jobScenario [stepA] 0 descFallback
        EnhanceOutcome.throws true).enhanced.width = 1024 ∧
    (runEnhancementJob (Raster.source 800 600) jobScenario [stepA] 0 descFallback
        EnhanceOutcome.throws true).enhanced.cropSource.map Raster.isCrop = some true ∧
    (runEnhancementJob (Raster.source 800 600) jobScenario [stepA] 0 descFallback
        EnhanceOutcome.throws true).enhanced ≠
      Raster.crop (Raster.source 800 600) ⟨350, 525/2, 100, 75⟩ 200 150 false := by
  refine ⟨rfl, rfl, ?_⟩
  intro h
  have h1 : (runEnhancementJob (Raster.source 800 600) jobScenario [stepA] 0 descFallback
      EnhanceOutcome.throws true).enhanced.cropSource.map Raster.isCrop = some true := rfl
  rw [h] at h1
  simp [Raster.cropSource, Raster.isCrop] at h1

/-- C1 amended: when the external enhance call throws, is blocked, or
returns no candidates, `serviceEnhance` returns its input unchanged and the
run commits a 1024-wide re-crop containing no AI content; the smooth
2x-upscaled crop of the original unpadded selection is committed only when
the orchestrator's own `try` block fails (the enhanced image does not
decode); in either case committing appends one step with the cursor at the
new tip. -/
theorem enhanceFailure_fallback_spec (image : Raster) (job : EnhancementJob)
    (hist : List HistoryStep) (historyIndex : ℕ) (describeResult : ImageDescription)
    (outcome : EnhanceOutcome)
    (hfail : outcome = EnhanceOutcome.throws ∨ outcome = EnhanceOutcome.blocked ∨
      outcome = EnhanceOutcome.noCandidates)
    (hnoAI : image.hasAI = false) :
    ((runEnhancementJob image job hist historyIndex describeResult outcome true).enhanced.width
        = 1024 ∧
     (runEnhancementJob image job hist historyIndex describeResult outcome true).enhanced.hasAI
        = false) ∧
    (runEnhancementJob image job hist historyIndex describeResult outcome false).enhanced =
      Raster.crop image job.originalRect (job.originalRect.w * 2) (job.originalRect.h * 2)
        false ∧
    (∀ st : HistoryStep, historyIndex < hist.length →
      (commitStep hist historyIndex st).1.length = historyIndex + 2 ∧
      (commitStep hist historyIndex st).2 = historyIndex + 1) := by
  refine ⟨⟨rfl, ?_⟩, rfl, ?_⟩
  · rcases hfail with h | h | h <;> subst h <;>
      simp [runEnhancementJob, serviceEnhance, Raster.hasAI, hnoAI]
  · intro st hlen
    have htk : (hist.take (historyIndex + 1)).length = historyIndex + 1 :=
      List.length_take_of_le (by omega)
    constructor
    · simp [commitStep, htk]
    · simp [commitStep, htk]

/-- Witness for C1's amended theorem at the end-to-end scenario inputs. -/
theorem enhanceFailure_fallback_spec_witness :
    (EnhanceOutcome.throws = EnhanceOutcome.throws ∨
      EnhanceOutcome.throws = EnhanceOutcome.blocked ∨
      EnhanceOutcome.throws = EnhanceOutcome.noCandidates) ∧
    (Raster.source 800 600).hasAI = false ∧
    (runEnhancementJob (Raster.source 800 600) jobScenario [stepA] 0 descFallback
        EnhanceOutcome.throws true).enhanced.hasAI = false ∧
    (runEnhancementJob (Raster.source 800 600) jobScenario [stepA] 0 descFallback
        EnhanceOutcome.throws false).enhanced =
      Raster.crop (Raster.source 800 600) jobScenario.originalRect
        (jobScenario.originalRect.w * 2) (jobScenario.originalRect.h * 2) false ∧
    (commitStep [stepA] 0 stepB).1.length = 2 ∧ (commitStep [stepA] 0 stepB).2 = 1 := by
  have h := enhanceFailure_fallback_spec (Raster.source 800 600) jobScenario [stepA] 0
    descFallback EnhanceOutcome.throws (Or.inl rfl) rfl
  have hc := h.2.2 stepB (by norm_num)
  exact ⟨Or.inl rfl, rfl, h.1.2, h.2.1, hc.1, hc.2⟩

/-! ### C8: zoom-sequence frame count -/

/-- Helper: one consecutive pair whose end step exists and carries a
selection rectangle contributes exactly 30 + 15 = 45 frames. -/
theorem pairFrames_length (hist : List HistoryStep) (gw gh : ℚ) (i : ℕ)
    (hi : i + 1 < hist.length)
    (hr : ((hist[i + 1]?).bind HistoryStep.originalRect).isSome = true) :
    (pairFrames hist gw gh i).length = 45 := by
  have hA : hist[i]? = some hist[i] := List.getElem?_eq_getElem (by omega)
  have hB : hist[i + 1]? = some hist[i + 1] := List.getElem?_eq_getElem hi
  rw [hB] at hr
  simp only [Option.some_bind] at hr
  obtain ⟨r, hrr⟩ := Option.isSome_iff_exists.mp hr
  unfold pairFrames
  rw [hA, hB]
  dsimp only
  rw [hrr]
  dsimp only
  rw [List.length_append, List.length_map, List.length_map, List.length_range,
    List.length_range]

/-- C8: for an active history slice of `k >= 2` steps whose steps `i >= 1`
all carry a selection rectangle, the zoom-sequence synthesizer emits
exactly `(k - 1) * (30 + 15)` frames. -/
theorem generateZoomGif_frameCount (hist : List HistoryStep)
    (hlen : 2 ≤ hist.length)
    (hrects : ∀ i ∈ List.range' 1 (hist.length - 1),
      ((hist[i]?).bind HistoryStep.originalRect).isSome = true) :
    ∃ fs : List GifFrame, generateZoomGif hist = Except.ok fs ∧
      fs.length = (hist.length - 1) * 45 := by
  have h2 : ¬ hist.length < 2 := by omega
  have h1lt : 1 < hist.length := by omega
  have h1 : hist[1]? = some hist[1] := List.getElem?_eq_getElem h1lt
  have hr1 := hrects 1 (List.mem_range'_1.mpr ⟨le_refl 1, by omega⟩)
  rw [h1] at hr1
  simp only [Option.some_bind] at hr1
  obtain ⟨r1, hr1e⟩ := Option.isSome_iff_exists.mp hr1
  unfold generateZoomGif
  rw [if_neg h2, h1]
  dsimp only
  rw [hr1e]
  dsimp only
  refine ⟨_, rfl, ?_⟩
  rw [List.length_flatten, List.map_map]
  have hmap : (List.range (hist.length - 1)).map
        (List.length ∘ pairFrames hist 512
          ((round (512 * (r1.h / r1.w)) : ℤ) : ℚ)) =
      (List.range (hist.length - 1)).map (fun _ => 45) := by
    refine List.map_congr_left ?_
    intro i hi
    have hilt : i < hist.length - 1 := List.mem_range.mp hi
    exact pairFrames_length hist _ _ i (by omega)
      (hrects (i + 1) (List.mem_range'_1.mpr ⟨by omega, by omega⟩))
  rw [hmap, List.map_const', List.length_range, List.sum_replicate, smul_eq_mul]

/-- Witness for C8 at a concrete two-step history: exactly 45 frames. -/
theorem generateZoomGif_frameCount_witness :
    2 ≤ ([stepA, stepB] : List HistoryStep).length ∧
    ∃ fs : List GifFrame, generateZoomGif [stepA, stepB] = Except.ok fs ∧ fs.length = 45 := by
  have hr : ∀ i ∈ List.range' 1 (([stepA, stepB] : List HistoryStep).length - 1),
      ((([stepA, stepB] : List HistoryStep)[i]?).bind HistoryStep.originalRect).isSome = true := by
    intro i hi
    have hi1 : i = 1 := by
      have hlen2 : ([stepA, stepB] : List HistoryStep).length = 2 := rfl
      rw [hlen2] at hi
      have := List.mem_range'_1.mp hi
      omega
    subst hi1
    rfl
  have h := generateZoomGif_frameCount [stepA, stepB] (by norm_num) hr
  exact ⟨by norm_num, by simpa using h⟩

/-! ### C7: pixel-reveal permutation and completion -/

/-- Swapping two slot indices is an involution. -/
theorem natSwap_involutive (i j k : ℕ) : natSwap i j (natSwap i j k) = k := by
  unfold natSwap
  split_ifs <;> omega

/-- A transposition of in-range slots keeps values in range. -/
theorem natSwap_lt (i j k n : ℕ) (hi : i < n) (hj : j < n) (hk : k < n) :
    natSwap i j k < n := by
  unfold natSwap
  split_ifs <;> assumption

/-- `shuffleFromInv` undoes `shuffleFrom`. -/
theorem shuffleFrom_leftInv (rand : ℕ → ℕ) (i k : ℕ) :
    shuffleFromInv rand i (shuffleFrom rand i k) = k := by
  induction i generalizing k with
  | zero => rfl
  | succ n ih =>
    simp only [shuffleFrom, shuffleFromInv]
    rw [natSwap_involutive, ih]

/-- `shuffleFrom` undoes `shuffleFromInv`. -/
theorem shuffleFrom_rightInv (rand : ℕ → ℕ) (i k : ℕ) :
    shuffleFrom rand i (shuffleFromInv rand i k) = k := by
  induction i generalizing k with
  | zero => rfl
  | succ n ih =>
    simp only [shuffleFrom, shuffleFromInv]
    rw [ih, natSwap_involutive]

/-- The shuffled entry lookup is injective. -/
theorem shuffleFrom_injective (rand : ℕ → ℕ) (i : ℕ) :
    Function.Injective (shuffleFrom rand i) :=
  Function.LeftInverse.injective (g := shuffleFromInv rand i) (shuffleFrom_leftInv rand i)

/-- Entries at slots below `n` stay below `n` (swap positions never exceed
the loop counter). -/
theorem shuffleFrom_lt (rand : ℕ → ℕ) (n : ℕ) : ∀ i k : ℕ, i < n → k < n →
    shuffleFrom rand i k < n := by
  intro i
  induction i with
  | zero => intro k _ hk; exact hk
  | succ m ih =>
    intro k hi hk
    simp only [shuffleFrom]
    refine natSwap_lt _ _ _ _ hi ?_ (ih k (by omega) hk)
    have := Nat.mod_lt (rand (m + 1)) (y := m + 2) (by omega)
    omega

/-- The inverse lookup also stays below `n`. -/
theorem shuffleFromInv_lt (rand : ℕ → ℕ) (n : ℕ) : ∀ i k : ℕ, i < n → k < n →
    shuffleFromInv rand i k < n := by
  intro i
  induction i with
  | zero => intro k _ hk; exact hk
  | succ m ih =>
    intro k hi hk
    simp only [shuffleFromInv]
    refine ih _ (by omega) (natSwap_lt _ _ _ _ hi ?_ hk)
    have := Nat.mod_lt (rand (m + 1)) (y := m + 2) (by omega)
    omega

/-- Each pixel index below `n` appears exactly once in the shuffled list. -/
theorem pixelEntries_count (rand : ℕ → ℕ) (n m : ℕ) (hm : m < n) :
    (pixelEntries rand n).count m = 1 := by
  have hnd : (pixelEntries rand n).Nodup :=
    List.Nodup.map (shuffleFrom_injective rand (n - 1)) (List.nodup_range n)
  have hmem : m ∈ pixelEntries rand n := by
    have hk : shuffleFromInv rand (n - 1) m < n :=
      shuffleFromInv_lt rand n (n - 1) m (by omega) hm
    exact List.mem_map.mpr ⟨shuffleFromInv rand (n - 1) m, List.mem_range.mpr hk,
      shuffleFrom_rightInv rand (n - 1) m⟩
  exact List.count_eq_one_of_mem hnd hmem

/-- Once a channel holds the high value it keeps it through further
reveals. -/
theorem revealList_high (n : ℕ) (high : ℕ → ℕ) (l : List ℕ) :
    ∀ buf : ℕ → ℕ, ∀ c : ℕ, buf c = high c → revealList n high buf l c = high c := by
  induction l with
  | nil => intro buf c hbuf; exact hbuf
  | cons idx rest ih =>
    intro buf c hbuf
    simp only [revealList]
    apply ih
    simp only [revealIdx]
    split_ifs with h
    · rfl
    · exact hbuf

/-- Revealing a list containing an index that covers channel `c` (with the
in-bounds guard satisfied) sets channel `c` to the high value. -/
theorem revealList_mem (n : ℕ) (high : ℕ → ℕ) (idx c : ℕ)
    (hcov : idx * 4 ≤ c ∧ c < idx * 4 + 4 ∧ idx * 4 + 3 < 4 * n) :
    ∀ l : List ℕ, ∀ buf : ℕ → ℕ, idx ∈ l → revealList n high buf l c = high c := by
  intro l
  induction l with
  | nil => intro buf h; cases h
  | cons a rest ih =>
    intro buf hmem
    simp only [revealList]
    rcases List.mem_cons.mp hmem with h | h
    · subst h
      apply revealList_high
      simp only [revealIdx]
      rw [if_pos hcov]
    · exact ih _ h

/-- Revealing a concatenation is revealing the parts in order. -/
theorem revealList_append (n : ℕ) (high buf : ℕ → ℕ) (l1 l2 : List ℕ) :
    revealList n high buf (l1 ++ l2) = revealList n high (revealList n high buf l1) l2 := by
  induction l1 generalizing buf with
  | nil => rfl
  | cons a t ih =>
    simp only [List.cons_append, revealList]
    exact ih _

/-- The chunked tick loop computes the same final buffer as revealing the
whole shuffled list in order. -/
theorem revealTicks_eq_revealList (n : ℕ) (high : ℕ → ℕ) (ppfPred : ℕ) :
    ∀ N : ℕ, ∀ l : List ℕ, l.length ≤ N → ∀ buf : ℕ → ℕ,
      revealTicks n high ppfPred buf l = revealList n high buf l := by
  intro N
  induction N with
  | zero =>
    intro l hl buf
    have hnil : l = [] := List.eq_nil_of_length_eq_zero (by omega)
    subst hnil
    rw [revealTicks]
    rfl
  | succ N ih =>
    intro l hl buf
    match l with
    | [] => rw [revealTicks]; rfl
    | idx :: rest =>
      rw [revealTicks]
      nth_rewrite 3 [← List.take_append_drop (ppfPred + 1) (idx :: rest)]
      rw [revealList_append]
      apply ih
      have hd := List.length_drop (ppfPred + 1) (idx :: rest)
      have hlen : (idx :: rest).length = rest.length + 1 := rfl
      omega

/-- C7: for every pair of equally-sized rasters of `n` pixels (channel
buffers of length `4 * n`) and every sequence of random draws, each pixel
index below `n` appears exactly once in the generated shuffled index list,
and after the tick loop completes every channel of the working buffer
equals the high-detail data. -/
theorem pixelReveal_spec (n : ℕ) (rand : ℕ → ℕ) (low high : ℕ → ℕ) (m c : ℕ)
    (hm : m < n) (hc : c < 4 * n) :
    (pixelEntries rand n).count m = 1 ∧
    revealTicks n high (pixelsPerFrame n - 1) low (pixelEntries rand n) c = high c := by
  refine ⟨pixelEntries_count rand n m hm, ?_⟩
  rw [revealTicks_eq_revealList n high (pixelsPerFrame n - 1) (pixelEntries rand n).length
    (pixelEntries rand n) (le_refl _) low]
  have hmem : c / 4 ∈ pixelEntries rand n := by
    have hk : shuffleFromInv rand (n - 1) (c / 4) < n :=
      shuffleFromInv_lt rand n (n - 1) (c / 4) (by omega) (by omega)
    exact List.mem_map.mpr ⟨shuffleFromInv rand (n - 1) (c / 4), List.mem_range.mpr hk,
      shuffleFrom_rightInv rand (n - 1) (c / 4)⟩
  exact revealList_mem n high (c / 4) c ⟨by omega, by omega, by omega⟩
    (pixelEntries rand n) low hmem

/-- Witness for C7 at `n = 2` pixels (8 channels), a constant random
source, and concrete buffers. -/
theorem pixelReveal_spec_witness :
    1 < 2 ∧ 5 < 4 * 2 ∧
    (pixelEntries (fun _ => 0) 2).count 1 = 1 ∧
    revealTicks 2 (fun c => c + 100) (pixelsPerFrame 2 - 1) (fun _ => 0)
      (pixelEntries (fun _ => 0) 2) 5 = 105 := by
  have h := pixelReveal_spec 2 (fun _ => 0) (fun _ => 0) (fun c => c + 100) 1 5
    (by norm_num) (by norm_num)
  exact ⟨by norm_num, by norm_num, h.1, by rw [h.2]⟩

end BananaZoom
